import Mathlib

/-!
Verification of the date utilities and the workout aggregation routine of the
lifting-diary application (`src/lib/date-utils.ts`), together with the caller-side
date validation (`src/components/dashboard/calendar-selector.tsx` and the dashboard
page).

Modelling conventions:
* JavaScript timestamps are modelled as `Int` milliseconds; local wall-clock time is
  modelled as a fixed offset from the epoch (no daylight-saving transitions), so
  `setHours(0,0,0,0)` is flooring to a multiple of `86400000`.
* A JavaScript `Date` is either valid (carrying its value) or `Invalid Date`
  (`NaN` timestamp); this is modelled as an `Option`.
* `date-fns`'s `format` is an external collaborator: on a valid date it extracts the
  local calendar components (here carried directly by `CivilDate`), and on an
  invalid date it throws `RangeError("Invalid time value")`, modelled as
  `Except.error "Invalid time value"`.
* The database rows returned by the drizzle left-join chain are modelled as `Row`
  records with `Option` branches; the database itself is an external collaborator,
  so `getWorkoutsForDate` receives the row list as an argument and records its
  query as an explicit effect.
-/

/-! ## Date-range resolver (`src/lib/date-utils.ts` lines 59-64, 87-94) -/

/-- Milliseconds in one day. -/
def msPerDay : Int := 86400000

/-- `new Date(date); d.setHours(0, 0, 0, 0)`: the start of the local day containing
the instant `t` (lines 60-61). -/
def jsStartOfDay (t : Int) : Int := t - t % msPerDay

/-- `new Date(date); d.setHours(23, 59, 59, 999)`: one millisecond before the next
midnight (lines 63-64). -/
def jsEndOfDay (t : Int) : Int := jsStartOfDay t + (msPerDay - 1)

/-- The `where` clause of the workout query (lines 87-94):
`gte(workouts.startedAt, startOfDay)` and `lt(workouts.startedAt, endOfDay)`. -/
def inDayRange (date t : Int) : Bool :=
  decide (jsStartOfDay date ≤ t) && decide (t < jsEndOfDay date)

/-- Lines 59-64 applied to a possibly invalid `Date`: `setHours` arithmetic on an
invalid date (`NaN`) stays invalid, so invalidity propagates into both bounds. -/
def dayBounds (date : Option Int) : Option Int × Option Int :=
  (date.map jsStartOfDay, date.map jsEndOfDay)

/-! ## Ordinal date formatter (`src/lib/date-utils.ts` lines 8-25) -/

/-- The local calendar components of a valid `Date`, as extracted by `date-fns`
`format` with patterns `d` / `MMM` / `yyyy`. -/
structure CivilDate where
  year : Nat
  month : Nat
  day : Nat
deriving DecidableEq, Repr

/-- `format(date, 'MMM')`: three-letter English month abbreviation. -/
def monthAbbrev (m : Nat) : String :=
  ["Jan", "Feb", "Mar", "Apr", "May", "Jun",
   "Jul", "Aug", "Sep", "Oct", "Nov", "Dec"].getD (m - 1) ""

/-- The `suffix` closure of `formatDateWithOrdinal` (lines 13-22): `parseInt` of the
day string followed by the `> 3 && < 21` shortcut and a modulo-10 table. -/
def ordinalSuffix (num : Nat) : String :=
  if num > 3 ∧ num < 21 then "th"
  else
    match num % 10 with
    | 1 => "st"
    | 2 => "nd"
    | 3 => "rd"
    | _ => "th"

/-- `format(date, 'yyyy')`: the year zero-padded to four digits. -/
def pad4 (n : Nat) : String :=
  if n < 10 then "000" ++ toString n
  else if n < 100 then "00" ++ toString n
  else if n < 1000 then "0" ++ toString n
  else toString n

/-- `formatDateWithOrdinal` (lines 8-25). On a valid date it renders
`{day}{suffix} {Mon} {yyyy}`; on an invalid date the first `format` call throws
`RangeError("Invalid time value")`. -/
def formatDateWithOrdinal (date : Option CivilDate) : Except String String :=
  match date with
  | none => Except.error "Invalid time value"
  | some d =>
      Except.ok (toString d.day ++ ordinalSuffix d.day ++ " " ++
                 monthAbbrev d.month ++ " " ++ pad4 d.year)

/-- Modelled from the spec: the modulo-100 ordinal-suffix rule of the UI
documentation (`if d % 100 in [11,13] → "th", else by d % 10`), which is not
present in `src/lib/date-utils.ts` itself. -/
def ordinalSuffixMod100 (d : Nat) : String :=
  if 11 ≤ d % 100 ∧ d % 100 ≤ 13 then "th"
  else
    match d % 10 with
    | 1 => "st"
    | 2 => "nd"
    | 3 => "rd"
    | _ => "th"

/-- The caller-side guard `isNaN(date.getTime()) ? new Date() : date`
(`src/components/dashboard/calendar-selector.tsx` line 18 and the dashboard page's
`if (isNaN(date.getTime())) date = new Date()`): an invalid date is replaced by the
current moment before the formatter or resolver ever sees it. -/
def validateDate {α : Type} (d : Option α) (now : α) : α :=
  match d with
  | some x => x
  | none => now

/-! ## Aggregator data model

The joined row shape produced by the drizzle select (lines 67-94): each row carries
the columns of the four tables that the aggregation loop reads. `leftJoin` makes the
`workoutExercise`, `exercise` and `set` branches nullable; the `workout` branch is
also treated defensively as nullable (line 112 `if (!row.workout) continue`). -/

/-- The `workouts` columns read by the aggregator (`id`, `name`, `startedAt`,
`completedAt`; timestamps as millisecond values). -/
structure WorkoutRec where
  id : Nat
  name : Option String
  startedAt : Int
  completedAt : Option Int
deriving DecidableEq, Repr

/-- The `workout_exercises` join columns read by the aggregator. -/
structure WorkoutExerciseRec where
  id : Nat
  order : Int
deriving DecidableEq, Repr

/-- The `exercises` columns read by the aggregator. -/
structure ExerciseRec where
  id : Nat
  name : String
deriving DecidableEq, Repr

/-- The `sets` columns read by the aggregator (`weight` is a numeric column
delivered as text). -/
structure SetRec where
  setNumber : Int
  weight : Option String
  reps : Option Int
  durationSeconds : Option Int
deriving DecidableEq, Repr

/-- One flat row of the left-join result (`workoutsData`). -/
structure Row where
  workout : Option WorkoutRec
  workoutExercise : Option WorkoutExerciseRec
  exercise : Option ExerciseRec
  set : Option SetRec
deriving DecidableEq, Repr

/-- Output type `WorkoutSet` (lines 32-37). -/
structure WorkoutSet where
  setNumber : Int
  weight : Option String
  reps : Option Int
  durationSeconds : Option Int
deriving DecidableEq, Repr

/-- Output type `WorkoutExercise` (lines 39-42): the transient `order` key is gone. -/
structure WorkoutExercise where
  name : String
  sets : List WorkoutSet
deriving DecidableEq, Repr

/-- Output type `WorkoutWithExercises` (lines 44-50). -/
structure WorkoutWithExercises where
  id : Nat
  name : Option String
  startedAt : Int
  completedAt : Option Int
  exercises : List WorkoutExercise
deriving DecidableEq, Repr

/-- The per-exercise accumulator value (the anonymous `{name, order, sets}` map
value of `WorkoutWithExerciseMap.exercises`, lines 102-106). -/
structure ExerciseEntry where
  name : String
  order : Int
  sets : List WorkoutSet
deriving DecidableEq, Repr

/-- The per-workout accumulator `WorkoutWithExerciseMap` (lines 97-107); the
insertion-ordered `Map` is modelled as an association list. -/
structure WorkoutAcc where
  id : Nat
  name : Option String
  startedAt : Int
  completedAt : Option Int
  exercises : List (Nat × ExerciseEntry)
deriving DecidableEq, Repr

/-! ### Insertion-ordered map operations

A JavaScript `Map` iterates in key-insertion order; `set` on a fresh key appends,
`set`/mutation on an existing key updates in place. -/

/-- `Map.get`: the value at key `k`, if present. -/
def lookupA {β : Type} : List (Nat × β) → Nat → Option β
  | [], _ => none
  | (k', v) :: t, k => if k' = k then some v else lookupA t k

/-- In-place update of the value at key `k` (mutating a value already held by the
map, or `Map.set` on a present key). -/
def updateA {β : Type} : List (Nat × β) → Nat → (β → β) → List (Nat × β)
  | [], _, _ => []
  | (k', v) :: t, k, f => if k' = k then (k', f v) :: t else (k', v) :: updateA t k f

/-! ### The aggregation loop (lines 109-152) -/

/-- Lines 143-148: the pushed set record. -/
def mkWorkoutSet (s : SetRec) : WorkoutSet :=
  { setNumber := s.setNumber, weight := s.weight, reps := s.reps,
    durationSeconds := s.durationSeconds }

/-- Lines 129-151 restricted to one workout's exercise map: ensure an entry exists
for the exercise id (lines 132-138), then push the row's set if present
(lines 140-150). -/
def addExerciseRow (ex : ExerciseRec) (we : WorkoutExerciseRec) (s : Option SetRec)
    (em : List (Nat × ExerciseEntry)) : List (Nat × ExerciseEntry) :=
  let em' := if (lookupA em ex.id).isSome then em
             else em ++ [(ex.id, { name := ex.name, order := we.order, sets := [] })]
  match s with
  | none => em'
  | some sr => updateA em' ex.id (fun e => { e with sets := e.sets ++ [mkWorkoutSet sr] })

/-- Lines 117-123: the fresh accumulator on first sight of a workout id. -/
def initAcc (w : WorkoutRec) : WorkoutAcc :=
  { id := w.id, name := w.name, startedAt := w.startedAt, completedAt := w.completedAt,
    exercises := [] }

/-- Lines 129-151: the effect of one row on the workout's accumulator (only the
`exercises` map is ever touched after initialization). -/
def addRowToAcc (r : Row) (a : WorkoutAcc) : WorkoutAcc :=
  match r.exercise, r.workoutExercise with
  | some ex, some we => { a with exercises := addExerciseRow ex we r.set a.exercises }
  | _, _ => a

/-- One iteration of the `for (const row of workoutsData)` loop (lines 111-152). -/
def processRow (m : List (Nat × WorkoutAcc)) (r : Row) : List (Nat × WorkoutAcc) :=
  match r.workout with
  | none => m
  | some w =>
      let m' := if (lookupA m w.id).isSome then m else m ++ [(w.id, initAcc w)]
      updateA m' w.id (addRowToAcc r)

/-- The whole loop: `workoutsMap` after consuming all rows. -/
def buildMap (rows : List Row) : List (Nat × WorkoutAcc) :=
  rows.foldl processRow []

/-! ### Output shaping (lines 154-164) -/

/-- The stable insertion of JavaScript's stable `Array.prototype.sort` with a
numeric key comparator: an element is placed before the first already-sorted
element of strictly larger key, after all elements of smaller-or-equal key. -/
def insertByKey {α : Type} (key : α → Int) (x : α) : List α → List α
  | [] => [x]
  | y :: l => if key x ≤ key y then x :: y :: l else y :: insertByKey key x l

/-- Stable ascending sort by an integer key, the behaviour of
`arr.sort((a, b) => key(a) - key(b))`. -/
def sortByKey {α : Type} (key : α → Int) : List α → List α
  | [] => []
  | x :: l => insertByKey key x (sortByKey key l)

/-- Lines 160-163: drop the transient `order`, sort the sets by `setNumber`. -/
def finalizeEntry (e : ExerciseEntry) : WorkoutExercise :=
  { name := e.name, sets := sortByKey (fun s => s.setNumber) e.sets }

/-- Lines 155-164: one workout of the returned array — exercises sorted ascending
by `order`, each mapped to its output shape. -/
def finalizeAcc (a : WorkoutAcc) : WorkoutWithExercises :=
  { id := a.id, name := a.name, startedAt := a.startedAt, completedAt := a.completedAt,
    exercises := (sortByKey (fun p => p.2.order) a.exercises).map
                 (fun p => finalizeEntry p.2) }

/-- The pure aggregation `rows ↦ WorkoutWithExercises[]` (lines 96-164). -/
def aggregate (rows : List Row) : List WorkoutWithExercises :=
  (buildMap rows).map (fun p => finalizeAcc p.2)

/-! ### The full server function (lines 52-94)

The Clerk authentication result and the database's row answer are the two external
collaborators; the query this function would issue is recorded as an effect so that
"no query before the auth check" is expressible. -/

/-- A database access performed by `getWorkoutsForDate`. -/
inductive DbEffect where
  | query (startMs endMs : Int) (userId : String)
deriving DecidableEq, Repr

/-- `getWorkoutsForDate` (lines 52-165): throw `"Unauthorized"` when `auth()`
yields no user id (lines 53-57), otherwise compute the day bounds, issue the
filtered query (lines 59-94) and aggregate its rows (lines 96-164). -/
def getWorkoutsForDate (auth : Option String) (date : Int) (dbRows : List Row) :
    List DbEffect × Except String (List WorkoutWithExercises) :=
  match auth with
  | none => ([], Except.error "Unauthorized")
  | some userId =>
      ([DbEffect.query (jsStartOfDay date) (jsEndOfDay date) userId],
       Except.ok (aggregate dbRows))

/-! ### Projections used to reason about the loop -/

/-- Whether a row belongs to the workout with id `wid` (its `workout` branch is
present and carries that id). -/
def rowForW (wid : Nat) (r : Row) : Bool :=
  match r.workout with
  | some w => w.id == wid
  | none => false

/-- The exercise-level payload of a row: present exactly when both the `exercise`
and `workoutExercise` branches are (the guard of line 129). -/
def exPair (r : Row) : Option (ExerciseRec × WorkoutExerciseRec × Option SetRec) :=
  match r.exercise, r.workoutExercise with
  | some ex, some we => some (ex, we, r.set)
  | _, _ => none

/-- The effect of one row on a single workout's accumulator, viewed through
`lookupA`: create the accumulator on first sight, then apply the row to it. -/
def applyW (acc : Option WorkoutAcc) (r : Row) : Option WorkoutAcc :=
  match r.workout with
  | none => acc
  | some w => some (addRowToAcc r (acc.getD (initAcc w)))

/-- `addExerciseRow` uncurried over the row's exercise payload. -/
def stepE (em : List (Nat × ExerciseEntry))
    (p : ExerciseRec × WorkoutExerciseRec × Option SetRec) :
    List (Nat × ExerciseEntry) :=
  addExerciseRow p.1 p.2.1 p.2.2 em

/-- Appending a row's (optional) set to an exercise entry (lines 140-150). -/
def pushSet (s : Option SetRec) (e : ExerciseEntry) : ExerciseEntry :=
  match s with
  | none => e
  | some sr => { e with sets := e.sets ++ [mkWorkoutSet sr] }

/-- The effect of one exercise payload on a single exercise entry, viewed through
`lookupA`: initialize `name`/`order` on first sight, then push the set. -/
def applyE (acc : Option ExerciseEntry)
    (p : ExerciseRec × WorkoutExerciseRec × Option SetRec) : Option ExerciseEntry :=
  some (pushSet p.2.2 (acc.getD { name := p.1.name, order := p.2.1.order, sets := [] }))

/-- Reference reading of one exercise entry directly from the flat payload list:
`name`/`order` from the first payload carrying the exercise id, sets in row order
from all payloads carrying it. -/
def gatherE (ps : List (ExerciseRec × WorkoutExerciseRec × Option SetRec))
    (eid : Nat) : Option ExerciseEntry :=
  match ps.filter (fun p => p.1.id == eid) with
  | [] => none
  | p :: rest =>
      some { name := p.1.name, order := p.2.1.order,
             sets := ((p :: rest).filterMap (fun q => q.2.2)).map mkWorkoutSet }

/-- Reference reading of one workout's accumulator directly from the rows: fields
from the first row carrying the workout id, exercises folded from the exercise
payloads of all rows carrying it. -/
def gatherW (rows : List Row) (wid : Nat) : Option WorkoutAcc :=
  match rows.filter (rowForW wid) with
  | [] => none
  | r :: rest =>
      match r.workout with
      | none => none
      | some w =>
          some { initAcc w with
                 exercises := ((r :: rest).filterMap exPair).foldl stepE [] }

/-- An exercise entry viewed as the data that reaches the output: its sort key
together with its finalized form. -/
def entryOut (e : ExerciseEntry) : Int × WorkoutExercise :=
  (e.order, finalizeEntry e)

/-- The exercise entry stored for `(wid, eid)` in a workouts map. -/
def lookupEx (m : List (Nat × WorkoutAcc)) (wid eid : Nat) : Option ExerciseEntry :=
  match lookupA m wid with
  | none => none
  | some a => lookupA a.exercises eid

/-! ### Coherence of a row batch

A correct left-join result determines the workout record by its id, the exercise
name and `order` by the (workout, exercise) id pair, the set record by its
`setNumber` within one exercise, and gives distinct `order` values to distinct
exercises of one workout.  These are exactly the facts the aggregator's
first-sight initialization and stable sorting rely on. -/

/-- Pairwise coherence of two rows (trivially true unless both carry the same
workout id). -/
def pairCheck (r₁ r₂ : Row) : Bool :=
  match r₁.workout, r₂.workout with
  | some w₁, some w₂ =>
      if w₁.id = w₂.id then
        decide (w₁ = w₂) &&
        (match exPair r₁, exPair r₂ with
         | some p₁, some p₂ =>
             if p₁.1.id = p₂.1.id then
               decide (p₁.1 = p₂.1) && decide (p₁.2.1.order = p₂.2.1.order) &&
               (match p₁.2.2, p₂.2.2 with
                | some s₁, some s₂ => decide (s₁.setNumber = s₂.setNumber → s₁ = s₂)
                | _, _ => true)
             else decide (p₁.2.1.order ≠ p₂.2.1.order)
         | _, _ => true)
      else true
  | _, _ => true

/-- A row batch is coherent when every pair of its rows is. -/
def coherent (rows : List Row) : Bool :=
  rows.all fun r₁ => rows.all fun r₂ => pairCheck r₁ r₂

/-! ### Concrete row batches for counterexamples and witnesses -/

/-- A workout record shared by the concrete batches. -/
def wLegDay : WorkoutRec :=
  { id := 1, name := some "Leg Day", startedAt := 0, completedAt := none }

/-- Exercise id 100 linked with `order` 0. -/
def c3r1 : Row :=
  { workout := some wLegDay, workoutExercise := some { id := 10, order := 0 },
    exercise := some { id := 100, name := "Squat" }, set := none }

/-- The same exercise id 100 linked a second time, now with `order` 5. -/
def c3r2 : Row :=
  { workout := some wLegDay, workoutExercise := some { id := 11, order := 5 },
    exercise := some { id := 100, name := "Squat" }, set := none }

/-- A second exercise id 200 with `order` 3, sitting between the two. -/
def c3r3 : Row :=
  { workout := some wLegDay, workoutExercise := some { id := 12, order := 3 },
    exercise := some { id := 200, name := "Bench" }, set := none }

/-- First row of the end-to-end scenario: workout 1, exercise "Squat", set 1. -/
def e2er1 : Row :=
  { workout := some wLegDay, workoutExercise := some { id := 10, order := 0 },
    exercise := some { id := 100, name := "Squat" },
    set := some { setNumber := 1, weight := some "225", reps := some 5,
                  durationSeconds := none } }

/-- A row carrying only a workout branch (no exercise, no set). -/
def bareRow : Row :=
  { workout := some wLegDay, workoutExercise := none, exercise := none, set := none }

/-- Second row of the end-to-end scenario: the same exercise, set 2. -/
def e2er2 : Row :=
  { workout := some wLegDay, workoutExercise := some { id := 10, order := 0 },
    exercise := some { id := 100, name := "Squat" },
    set := some { setNumber := 2, weight := some "225", reps := some 5,
                  durationSeconds := none } }

/-! ## Association-list lemmas -/

/-- Smoke test: the spec's end-to-end scenario — two rows of the same workout and
exercise with sets 1 and 2 — aggregates to one workout with one exercise holding
the two sets in `setNumber` order. -/
theorem end_to_end_scenario :
    aggregate [e2er1, e2er2] =
      [{ id := 1, name := some "Leg Day", startedAt := 0, completedAt := none,
         exercises := [{ name := "Squat",
                         sets := [{ setNumber := 1, weight := some "225",
                                    reps := some 5, durationSeconds := none },
                                  { setNumber := 2, weight := some "225",
                                    reps := some 5, durationSeconds := none }] }] }] := by
  decide

theorem lookupA_append_left {β : Type} {l₁ : List (Nat × β)} {k : Nat} {v : β}
    (l₂ : List (Nat × β)) (h : lookupA l₁ k = some v) :
    lookupA (l₁ ++ l₂) k = some v := by
  induction l₁ with
  | nil => simp [lookupA] at h
  | cons hd t ih =>
      obtain ⟨k', v'⟩ := hd
      by_cases hk : k' = k <;> simp_all [lookupA]

theorem lookupA_append_right {β : Type} {l₁ : List (Nat × β)} {k : Nat}
    (l₂ : List (Nat × β)) (h : lookupA l₁ k = none) :
    lookupA (l₁ ++ l₂) k = lookupA l₂ k := by
  induction l₁ with
  | nil => simp [lookupA]
  | cons hd t ih =>
      obtain ⟨k', v'⟩ := hd
      by_cases hk : k' = k <;> simp_all [lookupA]

theorem lookupA_updateA_self {β : Type} (l : List (Nat × β)) (k : Nat) (f : β → β) :
    lookupA (updateA l k f) k = (lookupA l k).map f := by
  induction l with
  | nil => simp [lookupA, updateA]
  | cons hd t ih =>
      obtain ⟨k', v'⟩ := hd
      by_cases hk : k' = k <;> simp_all [lookupA, updateA]

theorem lookupA_updateA_ne {β : Type} (l : List (Nat × β)) {k k' : Nat} (f : β → β)
    (h : k ≠ k') : lookupA (updateA l k f) k' = lookupA l k' := by
  induction l with
  | nil => simp [lookupA, updateA]
  | cons hd t ih =>
      obtain ⟨k₀, v₀⟩ := hd
      by_cases hk : k₀ = k
      · subst hk
        simp [lookupA, updateA, h]
      · by_cases hk' : k₀ = k' <;> simp_all [lookupA, updateA]

theorem keys_updateA {β : Type} (l : List (Nat × β)) (k : Nat) (f : β → β) :
    (updateA l k f).map Prod.fst = l.map Prod.fst := by
  induction l with
  | nil => simp [updateA]
  | cons hd t ih =>
      obtain ⟨k₀, v₀⟩ := hd
      by_cases hk : k₀ = k <;> simp_all [updateA]

theorem lookupA_isSome_iff {β : Type} (l : List (Nat × β)) (k : Nat) :
    (lookupA l k).isSome = true ↔ k ∈ l.map Prod.fst := by
  induction l with
  | nil => simp [lookupA]
  | cons hd t ih =>
      obtain ⟨k₀, v₀⟩ := hd
      by_cases hk : k₀ = k <;> simp_all [lookupA]
      exact fun h => (hk h.symm).elim

theorem mem_of_lookupA_eq_some {β : Type} {l : List (Nat × β)} {k : Nat} {v : β}
    (h : lookupA l k = some v) : (k, v) ∈ l := by
  induction l with
  | nil => simp [lookupA] at h
  | cons hd t ih =>
      obtain ⟨k₀, v₀⟩ := hd
      by_cases hk : k₀ = k
      · subst hk
        simp [lookupA] at h
        simp [h]
      · simp [lookupA, hk] at h
        simp [ih h]

theorem lookupA_eq_some_of_mem {β : Type} {l : List (Nat × β)} {k : Nat} {v : β}
    (hnd : (l.map Prod.fst).Nodup) (h : (k, v) ∈ l) : lookupA l k = some v := by
  induction l with
  | nil => simp at h
  | cons hd t ih =>
      obtain ⟨k₀, v₀⟩ := hd
      simp only [List.map_cons, List.nodup_cons] at hnd
      rcases List.mem_cons.mp h with h | h
      · have h₁ : k = k₀ := congrArg Prod.fst h
        have h₂ : v = v₀ := congrArg Prod.snd h
        subst h₁
        simp [lookupA, h₂]
      · have hk : k₀ ≠ k := fun hkk =>
          hnd.1 (hkk ▸ List.mem_map.mpr ⟨(k, v), h, rfl⟩)
        simp [lookupA, hk, ih hnd.2 h]

theorem lookupA_map_val {β γ : Type} (f : β → γ) (l : List (Nat × β)) (k : Nat) :
    lookupA (l.map (fun p => (p.1, f p.2))) k = (lookupA l k).map f := by
  induction l with
  | nil => simp [lookupA]
  | cons hd t ih =>
      obtain ⟨k₀, v₀⟩ := hd
      by_cases hk : k₀ = k <;> simp_all [lookupA]

theorem perm_of_lookupA_eq {β : Type} {l₁ l₂ : List (Nat × β)}
    (h₁ : (l₁.map Prod.fst).Nodup) (h₂ : (l₂.map Prod.fst).Nodup)
    (h : ∀ k, lookupA l₁ k = lookupA l₂ k) : l₁.Perm l₂ := by
  rw [List.perm_ext_iff_of_nodup (h₁.of_map) (h₂.of_map)]
  rintro ⟨k, v⟩
  constructor
  · intro hm
    have hv := lookupA_eq_some_of_mem h₁ hm
    rw [h k] at hv
    exact mem_of_lookupA_eq_some hv
  · intro hm
    have hv := lookupA_eq_some_of_mem h₂ hm
    rw [← h k] at hv
    exact mem_of_lookupA_eq_some hv

/-! ## Stable-sort lemmas -/

theorem insertByKey_perm {α : Type} (key : α → Int) (x : α) (l : List α) :
    (insertByKey key x l).Perm (x :: l) := by
  induction l with
  | nil => simp [insertByKey]
  | cons y t ih =>
      by_cases h : key x ≤ key y
      · simp [insertByKey, h]
      · simp only [insertByKey, if_neg h]
        exact (ih.cons y).trans (List.Perm.swap x y t)

theorem sortByKey_perm {α : Type} (key : α → Int) (l : List α) :
    (sortByKey key l).Perm l := by
  induction l with
  | nil => simp [sortByKey]
  | cons x t ih =>
      exact (insertByKey_perm key x _).trans (ih.cons x)

theorem insertByKey_pairwise {α : Type} (key : α → Int) (x : α) {l : List α}
    (h : l.Pairwise (fun a b => key a ≤ key b)) :
    (insertByKey key x l).Pairwise (fun a b => key a ≤ key b) := by
  induction l with
  | nil => simp [insertByKey]
  | cons y t ih =>
      rcases List.pairwise_cons.mp h with ⟨hy, ht⟩
      by_cases hxy : key x ≤ key y
      · simp only [insertByKey, if_pos hxy]
        refine List.pairwise_cons.mpr ⟨?_, h⟩
        intro b hb
        rcases List.mem_cons.mp hb with hb | hb
        · rw [hb]; exact hxy
        · exact le_trans hxy (hy b hb)
      · have hyx : key y ≤ key x := le_of_not_le hxy
        simp only [insertByKey, if_neg hxy]
        refine List.pairwise_cons.mpr ⟨?_, ih ht⟩
        intro b hb
        rcases List.mem_cons.mp (((insertByKey_perm key x t).mem_iff).mp hb) with hb | hb
        · rw [hb]; exact hyx
        · exact hy b hb

theorem sortByKey_pairwise {α : Type} (key : α → Int) (l : List α) :
    (sortByKey key l).Pairwise (fun a b => key a ≤ key b) := by
  induction l with
  | nil => simp [sortByKey]
  | cons x t ih => exact insertByKey_pairwise key x ih

theorem insertByKey_map {α γ : Type} (f : α → γ) (k₁ : α → Int) (k₂ : γ → Int)
    (hk : ∀ a, k₂ (f a) = k₁ a) (x : α) (l : List α) :
    (insertByKey k₁ x l).map f = insertByKey k₂ (f x) (l.map f) := by
  induction l with
  | nil => simp [insertByKey]
  | cons y t ih =>
      by_cases h : k₁ x ≤ k₁ y
      · simp [insertByKey, h, hk]
      · simp [insertByKey, h, hk, ih]

theorem sortByKey_map {α γ : Type} (f : α → γ) (k₁ : α → Int) (k₂ : γ → Int)
    (hk : ∀ a, k₂ (f a) = k₁ a) (l : List α) :
    (sortByKey k₁ l).map f = sortByKey k₂ (l.map f) := by
  induction l with
  | nil => simp [sortByKey]
  | cons x t ih => simp [sortByKey, insertByKey_map f k₁ k₂ hk, ih]

theorem eq_of_perm_of_pairwise_key {α : Type} (key : α → Int) :
    ∀ {l₁ l₂ : List α}, l₁.Perm l₂ →
      l₁.Pairwise (fun a b => key a ≤ key b) →
      l₂.Pairwise (fun a b => key a ≤ key b) →
      (∀ a ∈ l₁, ∀ b ∈ l₁, key a = key b → a = b) → l₁ = l₂
  | [], l₂, hp, _, _, _ => (hp.nil_eq).symm ▸ rfl
  | a :: t₁, l₂, hp, hs₁, hs₂, hinj => by
      have ha₂ : a ∈ l₂ := hp.mem_iff.mp (List.mem_cons_self a t₁)
      match l₂, hs₂ with
      | b :: t₂, hs₂ =>
          rcases List.pairwise_cons.mp hs₁ with ⟨h₁a, h₁t⟩
          rcases List.pairwise_cons.mp hs₂ with ⟨h₂b, h₂t⟩
          have hb₁ : b ∈ a :: t₁ := hp.mem_iff.mpr (List.mem_cons_self b t₂)
          have hab : a = b := by
            rcases List.mem_cons.mp hb₁ with h | h
            · exact h.symm
            · rcases List.mem_cons.mp ha₂ with h' | h'
              · exact h'
              · exact hinj a (List.mem_cons_self a t₁) b hb₁
                  (le_antisymm (h₁a b h) (h₂b a h'))
          subst hab
          have ht : t₁.Perm t₂ := hp.cons_inv
          have := eq_of_perm_of_pairwise_key key ht h₁t h₂t
            (fun x hx y hy hxy =>
              hinj x (List.mem_cons_of_mem a hx) y (List.mem_cons_of_mem a hy) hxy)
          rw [this]

theorem sortByKey_eq_of_perm {α : Type} (key : α → Int) {l₁ l₂ : List α}
    (hp : l₁.Perm l₂) (hinj : ∀ a ∈ l₁, ∀ b ∈ l₁, key a = key b → a = b) :
    sortByKey key l₁ = sortByKey key l₂ := by
  refine eq_of_perm_of_pairwise_key key
    (((sortByKey_perm key l₁).trans hp).trans (sortByKey_perm key l₂).symm)
    (sortByKey_pairwise key l₁) (sortByKey_pairwise key l₂) ?_
  intro a ha b hb
  exact hinj a ((sortByKey_perm key l₁).mem_iff.mp ha)
    b ((sortByKey_perm key l₁).mem_iff.mp hb)

/-! ## Characterizing the aggregation loop

The loop is localized one workout at a time (`lookupA` commutes with
`processRow`), and then one exercise at a time, yielding the reference readings
`gatherW` / `gatherE`. -/

theorem addRowToAcc_eq (r : Row) (a : WorkoutAcc) :
    addRowToAcc r a =
      { a with exercises := match exPair r with
                            | some p => stepE a.exercises p
                            | none => a.exercises } := by
  unfold addRowToAcc exPair stepE
  cases r.exercise <;> cases r.workoutExercise <;> simp

theorem lookupA_processRow (m : List (Nat × WorkoutAcc)) (r : Row) (wid : Nat) :
    lookupA (processRow m r) wid =
      if rowForW wid r then applyW (lookupA m wid) r else lookupA m wid := by
  cases hw : r.workout with
  | none => simp [processRow, rowForW, hw]
  | some w =>
      by_cases hid : w.id = wid
      · subst hid
        simp only [processRow, rowForW, applyW, hw, beq_self_eq_true, if_pos]
        cases hl : lookupA m w.id with
        | some a =>
            have hs : (lookupA m w.id).isSome = true := by simp [hl]
            simp [hs, hl, lookupA_updateA_self]
        | none =>
            simp only [Option.isSome_none, Bool.false_eq_true, if_false,
                       Option.getD_none]
            rw [lookupA_updateA_self, lookupA_append_right _ hl]
            simp [lookupA]
      · have hbe : (w.id == wid) = false := by simp [hid]
        simp only [processRow, rowForW, hw, hbe, Bool.false_eq_true, if_false]
        rw [lookupA_updateA_ne _ _ hid]
        by_cases hs : (lookupA m w.id).isSome = true
        · simp [hs]
        · rw [if_neg hs]
          cases hl : lookupA m wid with
          | some v => exact lookupA_append_left _ hl
          | none =>
              rw [lookupA_append_right _ hl]
              simp [lookupA, hid]

theorem lookupA_foldl_processRow (rows : List Row) (m : List (Nat × WorkoutAcc))
    (wid : Nat) :
    lookupA (rows.foldl processRow m) wid =
      (rows.filter (rowForW wid)).foldl applyW (lookupA m wid) := by
  induction rows generalizing m with
  | nil => simp
  | cons r t ih =>
      simp only [List.foldl_cons, List.filter_cons]
      by_cases h : rowForW wid r
      · simp only [h, if_pos, List.foldl_cons]
        rw [ih, lookupA_processRow, if_pos h]
      · simp only [h, Bool.false_eq_true, if_false]
        rw [ih, lookupA_processRow, if_neg]
        simp [h]

theorem foldl_applyW_char :
    ∀ (rs : List Row) (a : WorkoutAcc), (∀ r ∈ rs, r.workout.isSome = true) →
      rs.foldl applyW (some a) =
        some { a with exercises := (rs.filterMap exPair).foldl stepE a.exercises }
  | [], a, _ => by simp
  | r :: t, a, h => by
      cases hw : r.workout with
      | none =>
          have := h r (List.mem_cons_self r t)
          rw [hw] at this
          simp at this
      | some w =>
          have ht : ∀ r' ∈ t, r'.workout.isSome = true := fun r' hr' =>
            h r' (List.mem_cons_of_mem _ hr')
          simp only [List.foldl_cons, applyW, hw, Option.getD_some]
          rw [addRowToAcc_eq, foldl_applyW_char t _ ht]
          cases hp : exPair r with
          | none => simp [List.filterMap_cons, hp]
          | some p => simp [List.filterMap_cons, hp]

theorem gatherW_char (rows : List Row) (wid : Nat) :
    lookupA (buildMap rows) wid = gatherW rows wid := by
  rw [buildMap, lookupA_foldl_processRow rows [] wid]
  cases hf : rows.filter (rowForW wid) with
  | nil => simp [gatherW, hf, lookupA]
  | cons r rest =>
      have hrmem : r ∈ rows.filter (rowForW wid) := by
        rw [hf]; exact List.mem_cons_self r rest
      have hr : rowForW wid r = true := (List.mem_filter.mp hrmem).2
      have hrest : ∀ r' ∈ rest, r'.workout.isSome = true := by
        intro r' hr'
        have hmem : r' ∈ rows.filter (rowForW wid) := by
          rw [hf]; exact List.mem_cons_of_mem r hr'
        have hpw := (List.mem_filter.mp hmem).2
        unfold rowForW at hpw
        cases hw' : r'.workout with
        | none => rw [hw'] at hpw; simp at hpw
        | some w' => simp [hw']
      cases hw : r.workout with
      | none => unfold rowForW at hr; rw [hw] at hr; simp at hr
      | some w =>
          have happ : applyW none r = some (addRowToAcc r (initAcc w)) := by
            simp [applyW, hw]
          simp only [gatherW, hf, hw, lookupA, List.foldl_cons]
          rw [happ, foldl_applyW_char rest _ hrest, addRowToAcc_eq]
          cases hp : exPair r with
          | none => simp [List.filterMap_cons, hp, initAcc]
          | some p => simp [List.filterMap_cons, hp, initAcc]

theorem keys_processRow (m : List (Nat × WorkoutAcc)) (r : Row) :
    (processRow m r).map Prod.fst = m.map Prod.fst ∨
    ∃ w, r.workout = some w ∧ lookupA m w.id = none ∧
         (processRow m r).map Prod.fst = m.map Prod.fst ++ [w.id] := by
  cases hw : r.workout with
  | none => left; simp [processRow, hw]
  | some w =>
      by_cases hs : (lookupA m w.id).isSome = true
      · left
        simp only [processRow, hw, if_pos hs]
        exact keys_updateA ..
      · right
        refine ⟨w, rfl, ?_, ?_⟩
        · cases hl : lookupA m w.id with
          | none => rfl
          | some a => rw [hl] at hs; simp at hs
        · simp only [processRow, hw, if_neg hs]
          rw [keys_updateA]
          simp

theorem keys_foldl_processRow_nodup :
    ∀ (rows : List Row) (m : List (Nat × WorkoutAcc)),
      (m.map Prod.fst).Nodup → ((rows.foldl processRow m).map Prod.fst).Nodup
  | [], _, h => h
  | r :: t, m, h => by
      apply keys_foldl_processRow_nodup t
      rcases keys_processRow m r with hk | ⟨w, _, hl, hk⟩
      · rw [hk]; exact h
      · rw [hk]
        refine h.append (List.nodup_singleton _) ?_
        intro a ha hb
        rw [List.mem_singleton] at hb
        subst hb
        have := (lookupA_isSome_iff m w.id).mpr ha
        rw [hl] at this
        simp at this

theorem keys_buildMap_nodup (rows : List Row) :
    ((buildMap rows).map Prod.fst).Nodup :=
  keys_foldl_processRow_nodup rows [] (by simp)

theorem gatherW_id {rows : List Row} {wid : Nat} {a : WorkoutAcc}
    (h : gatherW rows wid = some a) : a.id = wid := by
  cases hf : rows.filter (rowForW wid) with
  | nil => simp [gatherW, hf] at h
  | cons r rest =>
      simp only [gatherW, hf] at h
      have hrmem : r ∈ rows.filter (rowForW wid) := by
        rw [hf]; exact List.mem_cons_self r rest
      have hr : rowForW wid r = true := (List.mem_filter.mp hrmem).2
      cases hw : r.workout with
      | none => rw [hw] at h; simp at h
      | some w =>
          rw [hw] at h
          unfold rowForW at hr
          rw [hw] at hr
          have hid : w.id = wid := by simpa using hr
          have ha : { initAcc w with
                      exercises := ((r :: rest).filterMap exPair).foldl stepE [] } = a :=
            Option.some.inj h
          rw [← ha]
          exact hid

theorem lookupA_buildMap_isSome_iff (rows : List Row) (wid : Nat) :
    (lookupA (buildMap rows) wid).isSome = true ↔
      ∃ r ∈ rows, rowForW wid r = true := by
  rw [gatherW_char]
  cases hf : rows.filter (rowForW wid) with
  | nil =>
      simp only [gatherW, hf, Option.isSome_none, Bool.false_eq_true, false_iff]
      rintro ⟨r, hr, hpred⟩
      have : r ∈ rows.filter (rowForW wid) := List.mem_filter.mpr ⟨hr, hpred⟩
      rw [hf] at this
      simp at this
  | cons r rest =>
      simp only [gatherW, hf]
      have hrmem : r ∈ rows.filter (rowForW wid) := by
        rw [hf]; exact List.mem_cons_self r rest
      have hr : rowForW wid r = true := (List.mem_filter.mp hrmem).2
      cases hw : r.workout with
      | none => unfold rowForW at hr; rw [hw] at hr; simp at hr
      | some w =>
          simp only [Option.isSome_some, true_iff]
          exact ⟨r, (List.mem_filter.mp hrmem).1, hr⟩

theorem gatherW_some_shape {rows : List Row} {wid : Nat} {a : WorkoutAcc}
    (h : gatherW rows wid = some a) :
    ∃ r rest w, rows.filter (rowForW wid) = r :: rest ∧ r.workout = some w ∧
      a = { initAcc w with
            exercises := ((r :: rest).filterMap exPair).foldl stepE [] } := by
  cases hf : rows.filter (rowForW wid) with
  | nil => simp [gatherW, hf] at h
  | cons r rest =>
      simp only [gatherW, hf] at h
      cases hw : r.workout with
      | none => rw [hw] at h; simp at h
      | some w =>
          rw [hw] at h
          exact ⟨r, rest, w, rfl, hw, (Option.some.inj h).symm⟩

theorem mem_buildMap_char {rows : List Row} {p : Nat × WorkoutAcc}
    (hp : p ∈ buildMap rows) : gatherW rows p.1 = some p.2 := by
  rw [← gatherW_char]
  obtain ⟨k, a⟩ := p
  exact lookupA_eq_some_of_mem (keys_buildMap_nodup rows) hp

/-! ### The exercise-level fold -/

theorem lookupA_stepE (em : List (Nat × ExerciseEntry))
    (p : ExerciseRec × WorkoutExerciseRec × Option SetRec) (eid : Nat) :
    lookupA (stepE em p) eid =
      if p.1.id == eid then applyE (lookupA em eid) p else lookupA em eid := by
  obtain ⟨ex, we, s⟩ := p
  by_cases hid : ex.id = eid
  · subst hid
    simp only [beq_self_eq_true, if_pos]
    cases hl : lookupA em ex.id with
    | some e =>
        cases s with
        | none => simp [stepE, addExerciseRow, applyE, pushSet, hl]
        | some sr =>
            simp [stepE, addExerciseRow, applyE, pushSet, hl, lookupA_updateA_self]
    | none =>
        cases s with
        | none =>
            simp only [stepE, addExerciseRow, applyE, pushSet, hl, Option.isSome_none,
                       Bool.false_eq_true, if_false, Option.getD_none]
            rw [lookupA_append_right _ hl]
            simp [lookupA]
        | some sr =>
            simp only [stepE, addExerciseRow, applyE, pushSet, hl, Option.isSome_none,
                       Bool.false_eq_true, if_false, Option.getD_none]
            rw [lookupA_updateA_self, lookupA_append_right _ hl]
            simp [lookupA]
  · have hbe : (ex.id == eid) = false := by simp [hid]
    simp only [hbe, Bool.false_eq_true, if_false]
    cases hl0 : lookupA em ex.id with
    | some e =>
        cases s with
        | none => simp [stepE, addExerciseRow, hl0]
        | some sr =>
            simp only [stepE, addExerciseRow, hl0, Option.isSome_some, if_true]
            exact lookupA_updateA_ne _ _ hid
    | none =>
        cases s with
        | none =>
            simp only [stepE, addExerciseRow, hl0, Option.isSome_none,
                       Bool.false_eq_true, if_false]
            cases hl : lookupA em eid with
            | some v => exact lookupA_append_left _ hl
            | none =>
                rw [lookupA_append_right _ hl]
                simp [lookupA, hid]
        | some sr =>
            simp only [stepE, addExerciseRow, hl0, Option.isSome_none,
                       Bool.false_eq_true, if_false]
            rw [lookupA_updateA_ne _ _ hid]
            cases hl : lookupA em eid with
            | some v => exact lookupA_append_left _ hl
            | none =>
                rw [lookupA_append_right _ hl]
                simp [lookupA, hid]

theorem lookupA_foldl_stepE
    (ps : List (ExerciseRec × WorkoutExerciseRec × Option SetRec))
    (em : List (Nat × ExerciseEntry)) (eid : Nat) :
    lookupA (ps.foldl stepE em) eid =
      (ps.filter (fun p => p.1.id == eid)).foldl applyE (lookupA em eid) := by
  induction ps generalizing em with
  | nil => simp
  | cons p t ih =>
      simp only [List.foldl_cons, List.filter_cons]
      by_cases h : (p.1.id == eid) = true
      · simp only [h, if_pos, List.foldl_cons]
        rw [ih, lookupA_stepE, if_pos h]
      · simp only [h, Bool.false_eq_true, if_false]
        rw [ih, lookupA_stepE, if_neg]
        simp [h]

theorem foldl_applyE_char :
    ∀ (ps : List (ExerciseRec × WorkoutExerciseRec × Option SetRec))
      (e : ExerciseEntry),
      ps.foldl applyE (some e) =
        some { e with
               sets := e.sets ++ (ps.filterMap (fun q => q.2.2)).map mkWorkoutSet }
  | [], e => by simp
  | p :: t, e => by
      simp only [List.foldl_cons, applyE, Option.getD_some]
      rw [foldl_applyE_char t _]
      cases hs : p.2.2 with
      | none => simp [pushSet, List.filterMap_cons, hs]
      | some sr => simp [pushSet, List.filterMap_cons, hs]

theorem gatherE_char
    (ps : List (ExerciseRec × WorkoutExerciseRec × Option SetRec)) (eid : Nat) :
    lookupA (ps.foldl stepE []) eid = gatherE ps eid := by
  rw [lookupA_foldl_stepE]
  cases hf : ps.filter (fun p => p.1.id == eid) with
  | nil => simp [gatherE, hf, lookupA]
  | cons p rest =>
      simp only [gatherE, hf, lookupA, List.foldl_cons]
      have happ : applyE none p =
          some (pushSet p.2.2 { name := p.1.name, order := p.2.1.order, sets := [] }) := by
        simp [applyE]
      rw [happ, foldl_applyE_char rest _]
      cases hs : p.2.2 with
      | none => simp [pushSet, List.filterMap_cons, hs]
      | some sr => simp [pushSet, List.filterMap_cons, hs]

theorem keys_stepE (em : List (Nat × ExerciseEntry))
    (p : ExerciseRec × WorkoutExerciseRec × Option SetRec) :
    (stepE em p).map Prod.fst = em.map Prod.fst ∨
    (lookupA em p.1.id = none ∧
     (stepE em p).map Prod.fst = em.map Prod.fst ++ [p.1.id]) := by
  obtain ⟨ex, we, s⟩ := p
  simp only [stepE, addExerciseRow]
  by_cases hs : (lookupA em ex.id).isSome = true
  · left
    rw [if_pos hs]
    cases s with
    | none => rfl
    | some sr => exact keys_updateA ..
  · right
    constructor
    · cases hl : lookupA em ex.id with
      | none => rfl
      | some e => rw [hl] at hs; simp at hs
    · rw [if_neg hs]
      cases s with
      | none => simp
      | some sr => rw [keys_updateA]; simp

theorem keys_foldl_stepE_nodup :
    ∀ (ps : List (ExerciseRec × WorkoutExerciseRec × Option SetRec))
      (em : List (Nat × ExerciseEntry)),
      (em.map Prod.fst).Nodup → ((ps.foldl stepE em).map Prod.fst).Nodup
  | [], _, h => h
  | p :: t, em, h => by
      apply keys_foldl_stepE_nodup t
      rcases keys_stepE em p with hk | ⟨hl, hk⟩
      · rw [hk]; exact h
      · rw [hk]
        refine h.append (List.nodup_singleton _) ?_
        intro a ha hb
        rw [List.mem_singleton] at hb
        subst hb
        have := (lookupA_isSome_iff em p.1.id).mpr ha
        rw [hl] at this
        simp at this

theorem exercises_shape_of_mem {rows : List Row} {p : Nat × WorkoutAcc}
    (hp : p ∈ buildMap rows) :
    ∃ ps : List (ExerciseRec × WorkoutExerciseRec × Option SetRec),
      p.2.exercises = ps.foldl stepE [] := by
  obtain ⟨r, rest, w, _, _, ha⟩ := gatherW_some_shape (mem_buildMap_char hp)
  exact ⟨(r :: rest).filterMap exPair, by rw [ha]⟩

theorem exercises_keys_nodup_of_mem {rows : List Row} {p : Nat × WorkoutAcc}
    (hp : p ∈ buildMap rows) : ((p.2.exercises).map Prod.fst).Nodup := by
  obtain ⟨ps, hps⟩ := exercises_shape_of_mem hp
  rw [hps]
  exact keys_foldl_stepE_nodup ps [] (by simp)

/-! ## Claim C7: the day-bounds filter is a half-open interval -/

/-- C7: for every date `t`, the filter `gte(startedAt, startOfDay)` /
`lt(startedAt, endOfDay)` includes a workout starting exactly at the start of the
day of `t` and excludes one starting exactly at the start of the next day (which
is `jsStartOfDay t + msPerDay`, as the third conjunct records). -/
theorem day_bounds_half_open (t : Int) :
    inDayRange t (jsStartOfDay t) = true
    ∧ inDayRange t (jsStartOfDay t + msPerDay) = false
    ∧ jsStartOfDay (t + msPerDay) = jsStartOfDay t + msPerDay := by
  refine ⟨?_, ?_, ?_⟩
  · simp only [inDayRange, jsStartOfDay, jsEndOfDay, msPerDay, Bool.and_eq_true,
               decide_eq_true_eq]
    omega
  · have h : ¬(inDayRange t (jsStartOfDay t + msPerDay) = true) := by
      simp only [inDayRange, jsStartOfDay, jsEndOfDay, msPerDay, Bool.and_eq_true,
                 decide_eq_true_eq]
      omega
    exact Bool.not_eq_true _ ▸ h
  · simp only [jsStartOfDay, msPerDay]
    omega

/-! ## Claim C8: the exact ordinal formatting table -/

/-- C8: `formatDateWithOrdinal` returns exactly the seven strings of the spec's
formatting table on the seven given dates. -/
theorem ordinal_format_table :
    formatDateWithOrdinal (some ⟨2025, 9, 1⟩) = Except.ok "1st Sep 2025"
    ∧ formatDateWithOrdinal (some ⟨2025, 8, 2⟩) = Except.ok "2nd Aug 2025"
    ∧ formatDateWithOrdinal (some ⟨2026, 1, 3⟩) = Except.ok "3rd Jan 2026"
    ∧ formatDateWithOrdinal (some ⟨2024, 6, 4⟩) = Except.ok "4th Jun 2024"
    ∧ formatDateWithOrdinal (some ⟨2025, 12, 21⟩) = Except.ok "21st Dec 2025"
    ∧ formatDateWithOrdinal (some ⟨2024, 11, 22⟩) = Except.ok "22nd Nov 2024"
    ∧ formatDateWithOrdinal (some ⟨2026, 3, 23⟩) = Except.ok "23rd Mar 2026" :=
  ⟨rfl, rfl, rfl, rfl, rfl, rfl, rfl⟩

/-! ## Claim C9: the two ordinal-suffix rules agree on 1..31 -/

/-- C9: for every day-of-month `d` in 1..31 the implemented rule
(`d > 3 && d < 21 → "th"`, else modulo-10 table) agrees with the spec's
modulo-100 rule, and on 21..31 the modulo-10 cases apply as enumerated. -/
theorem ordinal_suffix_equiv (d : Nat) (h₁ : 1 ≤ d) (h₂ : d ≤ 31) :
    ordinalSuffix d = ordinalSuffixMod100 d
    ∧ (ordinalSuffix 21 = "st" ∧ ordinalSuffix 22 = "nd" ∧ ordinalSuffix 23 = "rd"
       ∧ ordinalSuffix 24 = "th" ∧ ordinalSuffix 25 = "th" ∧ ordinalSuffix 26 = "th"
       ∧ ordinalSuffix 27 = "th" ∧ ordinalSuffix 28 = "th" ∧ ordinalSuffix 29 = "th"
       ∧ ordinalSuffix 30 = "th" ∧ ordinalSuffix 31 = "st") := by
  constructor
  · interval_cases d <;> rfl
  · exact ⟨rfl, rfl, rfl, rfl, rfl, rfl, rfl, rfl, rfl, rfl, rfl⟩

/-- Witness for C9 at the concrete day 21. -/
theorem ordinal_suffix_equiv_witness :
    1 ≤ 21 ∧ 21 ≤ 31 ∧ ordinalSuffix 21 = ordinalSuffixMod100 21 :=
  ⟨by decide, by decide, (ordinal_suffix_equiv 21 (by decide) (by decide)).1⟩

/-! ## Claim C10: unauthenticated calls throw before querying -/

/-- C10: when `auth()` yields no user id, `getWorkoutsForDate` throws
`"Unauthorized"` having issued no database query, whatever the date and whatever
rows the database would have answered (the result does not depend on them). -/
theorem unauthorized_no_query (date : Int) (rows : List Row) :
    getWorkoutsForDate none date rows = ([], Except.error "Unauthorized") := rfl

/-! ## Claim C6: invalid-`Date` handling

The guard substituting "now" lives in the callers, not in the formatter or the
resolver themselves: handed an invalid `Date` directly, the formatter throws
(`date-fns` `format` raises `RangeError: Invalid time value`) and the resolver
propagates the invalid value into both bounds. -/

/-- C6 counterexample: at the concrete invalid `Date` (`none`), the formatter
fails instead of falling back to the current moment, and the resolver propagates
the invalid timestamp into both day bounds. -/
theorem invalid_date_counterexample :
    formatDateWithOrdinal none = Except.error "Invalid time value"
    ∧ dayBounds none = (none, none) :=
  ⟨rfl, rfl⟩

/-- C6 amended: the fallback to the current moment is performed by the callers
(the calendar selector and the dashboard page), whose `validateDate` guard
replaces an invalid `Date` by "now"; after that guard the formatter always
succeeds and the resolver produces genuine bounds. -/
theorem caller_guard_fallback (d : Option CivilDate) (dm : Option Int)
    (now : CivilDate) (nowMs : Int) :
    (d = none → validateDate d now = now)
    ∧ (dm = none → validateDate dm nowMs = nowMs)
    ∧ (∃ s, formatDateWithOrdinal (some (validateDate d now)) = Except.ok s)
    ∧ dayBounds (some (validateDate dm nowMs)) =
        (some (jsStartOfDay (validateDate dm nowMs)),
         some (jsEndOfDay (validateDate dm nowMs))) := by
  refine ⟨fun h => by rw [h]; rfl, fun h => by rw [h]; rfl, ?_, rfl⟩
  cases d with
  | none => exact ⟨_, rfl⟩
  | some cd => exact ⟨_, rfl⟩

/-- Witness for C6's amended theorem at the concrete invalid date. -/
theorem caller_guard_fallback_witness :
    (none : Option CivilDate) = none
    ∧ (none : Option Int) = none
    ∧ validateDate (none : Option CivilDate) ⟨2025, 9, 1⟩ = ⟨2025, 9, 1⟩
    ∧ (∃ s, formatDateWithOrdinal
        (some (validateDate (none : Option CivilDate) ⟨2025, 9, 1⟩)) = Except.ok s) :=
  ⟨rfl, rfl,
   (caller_guard_fallback none none ⟨2025, 9, 1⟩ 0).1 rfl,
   (caller_guard_fallback none none ⟨2025, 9, 1⟩ 0).2.2.1⟩

/-! ## Claim C1: the grouping invariant -/

theorem aggregate_ids (rows : List Row) :
    (aggregate rows).map (fun w => w.id) = (buildMap rows).map Prod.fst := by
  unfold aggregate
  rw [List.map_map]
  apply List.map_congr_left
  intro p hp
  exact gatherW_id (mem_buildMap_char hp)

theorem rowForW_eq_true_iff (i : Nat) (r : Row) :
    rowForW i r = true ↔ ∃ w, r.workout = some w ∧ w.id = i := by
  unfold rowForW
  cases hw : r.workout <;> simp

/-- C1: the output workout ids are exactly the distinct non-null workout ids of
the input rows, without duplication, and within each aggregated workout the
(sorted) exercise list — whose image under dropping ids and `order` is the
workout's output exercise list — has no duplicate exercise id. -/
theorem aggregate_grouping_invariant (rows : List Row) :
    ((aggregate rows).map (fun w => w.id)).Nodup
    ∧ (∀ i : Nat, i ∈ (aggregate rows).map (fun w => w.id) ↔
        ∃ r ∈ rows, ∃ w, r.workout = some w ∧ w.id = i)
    ∧ (∀ p ∈ buildMap rows,
        ((sortByKey (fun q => q.2.order) p.2.exercises).map Prod.fst).Nodup) := by
  refine ⟨?_, ?_, ?_⟩
  · rw [aggregate_ids]
    exact keys_buildMap_nodup rows
  · intro i
    rw [aggregate_ids]
    rw [← lookupA_isSome_iff, lookupA_buildMap_isSome_iff]
    constructor
    · rintro ⟨r, hr, hpred⟩
      exact ⟨r, hr, (rowForW_eq_true_iff i r).mp hpred⟩
    · rintro ⟨r, hr, hw⟩
      exact ⟨r, hr, (rowForW_eq_true_iff i r).mpr hw⟩
  · intro p hp
    have hperm : ((sortByKey (fun q => q.2.order) p.2.exercises).map Prod.fst).Perm
        ((p.2.exercises).map Prod.fst) :=
      (sortByKey_perm (fun q => q.2.order) p.2.exercises).map Prod.fst
    exact hperm.nodup_iff.mpr (exercises_keys_nodup_of_mem hp)

/-- Witness for C1 on the end-to-end scenario rows. -/
theorem aggregate_grouping_invariant_witness :
    ((aggregate [e2er1, e2er2]).map (fun w => w.id)).Nodup
    ∧ (1 ∈ (aggregate [e2er1, e2er2]).map (fun w => w.id)) :=
  ⟨(aggregate_grouping_invariant [e2er1, e2er2]).1,
   ((aggregate_grouping_invariant [e2er1, e2er2]).2.1 1).mpr
     ⟨e2er1, by decide, wLegDay, rfl, rfl⟩⟩

/-! ## Claim C2: sort correctness of the output -/

/-- C2: within every aggregated workout the exercises, once sorted for output,
are non-decreasing in their source `order` value (the `order` field itself being
dropped by `finalizeEntry`, as the second conjunct records), and in the actual
output every exercise's sets are non-decreasing by `setNumber`. -/
theorem aggregate_sort_correct (rows : List Row) :
    (∀ p ∈ buildMap rows,
       ((sortByKey (fun q => q.2.order) p.2.exercises).map
         (fun q => q.2.order)).Pairwise (· ≤ ·))
    ∧ (∀ p ∈ buildMap rows,
        (finalizeAcc p.2).exercises =
          (sortByKey (fun q => q.2.order) p.2.exercises).map (fun q => finalizeEntry q.2))
    ∧ (∀ w ∈ aggregate rows, ∀ e ∈ w.exercises,
        (e.sets.map (fun s => s.setNumber)).Pairwise (· ≤ ·)) := by
  refine ⟨?_, fun p _ => rfl, ?_⟩
  · intro p _
    rw [List.pairwise_map]
    exact sortByKey_pairwise (fun q => q.2.order) p.2.exercises
  · intro w hw e he
    unfold aggregate at hw
    rw [List.mem_map] at hw
    obtain ⟨p, _, hpw⟩ := hw
    rw [← hpw] at he
    unfold finalizeAcc at he
    rw [List.mem_map] at he
    obtain ⟨q, _, hqe⟩ := he
    rw [← hqe]
    unfold finalizeEntry
    rw [List.pairwise_map]
    exact sortByKey_pairwise (fun s => s.setNumber) q.2.sets

/-- Witness for C2 on the end-to-end scenario rows, at the one output workout and
its one exercise. -/
theorem aggregate_sort_correct_witness :
    ((({ name := "Squat",
         sets := [{ setNumber := 1, weight := some "225", reps := some 5,
                    durationSeconds := none },
                  { setNumber := 2, weight := some "225", reps := some 5,
                    durationSeconds := none }] } : WorkoutExercise).sets.map
      (fun s => s.setNumber)).Pairwise (· ≤ ·)) :=
  (aggregate_sort_correct [e2er1, e2er2]).2.2
    { id := 1, name := some "Leg Day", startedAt := 0, completedAt := none,
      exercises := [{ name := "Squat",
                      sets := [{ setNumber := 1, weight := some "225", reps := some 5,
                                 durationSeconds := none },
                               { setNumber := 2, weight := some "225", reps := some 5,
                                 durationSeconds := none }] }] }
    (by decide)
    { name := "Squat",
      sets := [{ setNumber := 1, weight := some "225", reps := some 5,
                 durationSeconds := none },
               { setNumber := 2, weight := some "225", reps := some 5,
                 durationSeconds := none }] }
    (by decide)

/-! ## Claim C4: partial-row tolerance -/

theorem foldl_processRow_filter :
    ∀ (rows : List Row) (m : List (Nat × WorkoutAcc)),
      rows.foldl processRow m =
        (rows.filter (fun r => r.workout.isSome)).foldl processRow m
  | [], _ => rfl
  | r :: t, m => by
      cases hw : r.workout with
      | none =>
          have hid : processRow m r = m := by simp [processRow, hw]
          simp only [List.foldl_cons, List.filter_cons, hw, Option.isSome_none,
                     Bool.false_eq_true, if_false, hid]
          exact foldl_processRow_filter t m
      | some w =>
          simp only [List.foldl_cons, List.filter_cons, hw, Option.isSome_some, if_true]
          exact foldl_processRow_filter t _

theorem gatherE_some_shape
    {ps : List (ExerciseRec × WorkoutExerciseRec × Option SetRec)} {eid : Nat}
    {e : ExerciseEntry} (h : gatherE ps eid = some e) :
    ∃ pr rest, ps.filter (fun q => q.1.id == eid) = pr :: rest ∧
      e = { name := pr.1.name, order := pr.2.1.order,
            sets := ((pr :: rest).filterMap (fun q => q.2.2)).map mkWorkoutSet } := by
  cases hf : ps.filter (fun q => q.1.id == eid) with
  | nil => simp [gatherE, hf] at h
  | cons pr rest =>
      simp only [gatherE, hf] at h
      exact ⟨pr, rest, rfl, (Option.some.inj h).symm⟩

theorem mem_exercises_char {rows : List Row} {p : Nat × WorkoutAcc}
    {q : Nat × ExerciseEntry} (hp : p ∈ buildMap rows) (hq : q ∈ p.2.exercises) :
    gatherE ((rows.filter (rowForW p.1)).filterMap exPair) q.1 = some q.2 := by
  obtain ⟨r, rest, w, hf, hw, ha⟩ := gatherW_some_shape (mem_buildMap_char hp)
  rw [← gatherE_char, hf]
  have hex : p.2.exercises = ((r :: rest).filterMap exPair).foldl stepE [] := by
    rw [ha]
  rw [← hex]
  have hnodup : ((p.2.exercises).map Prod.fst).Nodup := exercises_keys_nodup_of_mem hp
  obtain ⟨k, e⟩ := q
  exact lookupA_eq_some_of_mem hnodup hq

/-- C4: the aggregator is total and tolerant of partial rows — rows with no
workout branch are discarded outright (aggregating is the same as aggregating
the filtered list), a workout none of whose rows carries an exercise payload
ends with an empty output exercise list, and an exercise none of whose rows
carries a set ends with an empty output set list. -/
theorem aggregate_partial_row_tolerance (rows : List Row) :
    aggregate rows = aggregate (rows.filter (fun r => r.workout.isSome))
    ∧ (∀ p ∈ buildMap rows,
        (∀ r ∈ rows, rowForW p.1 r = true → exPair r = none) →
        (finalizeAcc p.2).exercises = [])
    ∧ (∀ p ∈ buildMap rows, ∀ q ∈ p.2.exercises,
        (∀ r ∈ rows, rowForW p.1 r = true →
          ∀ pr, exPair r = some pr → pr.1.id = q.1 → pr.2.2 = none) →
        (finalizeEntry q.2).sets = []) := by
  refine ⟨?_, ?_, ?_⟩
  · unfold aggregate buildMap
    rw [foldl_processRow_filter rows []]
  · intro p hp hnone
    obtain ⟨r, rest, w, hf, hw, ha⟩ := gatherW_some_shape (mem_buildMap_char hp)
    have hps : (r :: rest).filterMap exPair = [] := by
      rw [List.filterMap_eq_nil_iff]
      intro r' hr'
      have hr'mem : r' ∈ rows.filter (rowForW p.1) := by rw [hf]; exact hr'
      exact hnone r' (List.mem_filter.mp hr'mem).1 (List.mem_filter.mp hr'mem).2
    have hex : p.2.exercises = [] := by rw [ha, hps]; rfl
    unfold finalizeAcc
    rw [hex]
    rfl
  · intro p hp q hq hnone
    have hchar := mem_exercises_char hp hq
    obtain ⟨pr, prs, hfm, he⟩ := gatherE_some_shape hchar
    have hsets : (pr :: prs).filterMap (fun q' => q'.2.2) = [] := by
      rw [List.filterMap_eq_nil_iff]
      intro pr' hpr'
      have hpr'mem : pr' ∈ ((rows.filter (rowForW p.1)).filterMap exPair).filter
          (fun q' => q'.1.id == q.1) := by rw [hfm]; exact hpr'
      have h1 := List.mem_filter.mp hpr'mem
      obtain ⟨r', hr', hexp⟩ := List.mem_filterMap.mp h1.1
      have hr'' := List.mem_filter.mp hr'
      exact hnone r' hr''.1 hr''.2 pr' hexp (by simpa using h1.2)
    have hq2 : q.2.sets = [] := by rw [he, hsets]; rfl
    unfold finalizeEntry
    rw [hq2]
    rfl

/-- Witness for C4: a batch with one workout-only row yields that workout with an
empty exercise list and aggregates the same as its workout-filtered batch. -/
theorem aggregate_partial_row_tolerance_witness :
    aggregate [bareRow] = aggregate ([bareRow].filter (fun r => r.workout.isSome))
    ∧ (finalizeAcc { id := 1, name := some "Leg Day", startedAt := 0,
                     completedAt := none, exercises := [] }).exercises = [] :=
  ⟨(aggregate_partial_row_tolerance [bareRow]).1,
   (aggregate_partial_row_tolerance [bareRow]).2.1
     (1, { id := 1, name := some "Leg Day", startedAt := 0, completedAt := none,
           exercises := [] })
     (by decide) (by decide)⟩

/-! ## Claim C5: first-sight initialization is never overwritten -/

theorem lookupEx_char (rows : List Row) (wid eid : Nat) :
    lookupEx (buildMap rows) wid eid =
      gatherE ((rows.filter (rowForW wid)).filterMap exPair) eid := by
  unfold lookupEx
  rw [gatherW_char]
  cases hg : gatherW rows wid with
  | none =>
      cases hf : rows.filter (rowForW wid) with
      | nil => simp [hf, gatherE, lookupA]
      | cons r rest =>
          have hrmem : r ∈ rows.filter (rowForW wid) := by
            rw [hf]; exact List.mem_cons_self r rest
          have hr : rowForW wid r = true := (List.mem_filter.mp hrmem).2
          cases hw : r.workout with
          | none => unfold rowForW at hr; rw [hw] at hr; simp at hr
          | some w => simp [gatherW, hf, hw] at hg
  | some a =>
      obtain ⟨r, rest, w, hf, hw, ha⟩ := gatherW_some_shape hg
      rw [hf, ha]
      exact gatherE_char ..

/-- C5: once an exercise entry exists for `(workout, exercise)` — its `name` and
`order` taken from the first row's join record, as the second conjunct states —
feeding any further rows leaves `name` and `order` unchanged and only appends to
its set list. -/
theorem exercise_entry_frame (rows extra : List Row) (wid eid : Nat)
    (e : ExerciseEntry) (h : lookupEx (buildMap rows) wid eid = some e) :
    (∃ e', lookupEx (buildMap (rows ++ extra)) wid eid = some e'
        ∧ e'.name = e.name ∧ e'.order = e.order ∧ ∃ tl, e'.sets = e.sets ++ tl)
    ∧ (∀ pr prs,
        ((rows.filter (rowForW wid)).filterMap exPair).filter
            (fun q => q.1.id == eid) = pr :: prs →
        e.name = pr.1.name ∧ e.order = pr.2.1.order) := by
  rw [lookupEx_char] at h
  obtain ⟨pr, prs, hfm, he⟩ := gatherE_some_shape h
  constructor
  · rw [lookupEx_char]
    have hsplit : ((rows ++ extra).filter (rowForW wid)).filterMap exPair =
        ((rows.filter (rowForW wid)).filterMap exPair) ++
        ((extra.filter (rowForW wid)).filterMap exPair) := by
      rw [List.filter_append, List.filterMap_append]
    rw [hsplit]
    unfold gatherE
    rw [List.filter_append, hfm, List.cons_append]
    refine ⟨_, rfl, by rw [he], by rw [he], ?_⟩
    rw [he]
    refine ⟨(((extra.filter (rowForW wid)).filterMap exPair).filter
             (fun q => q.1.id == eid)).filterMap (fun q => q.2.2) |>.map mkWorkoutSet, ?_⟩
    rw [← List.cons_append, List.filterMap_append, List.map_append]
  · intro pr' prs' hfm'
    rw [hfm'] at hfm
    have hpr : pr' = pr := (List.cons.injEq .. ▸ hfm).1
    rw [he, hpr]
    exact ⟨rfl, rfl⟩

/-- Witness for C5: the entry created by the first end-to-end row keeps its
`name`/`order` and only gains sets when the second row is appended. -/
theorem exercise_entry_frame_witness :
    lookupEx (buildMap [e2er1]) 1 100 =
      some { name := "Squat", order := 0,
             sets := [{ setNumber := 1, weight := some "225", reps := some 5,
                        durationSeconds := none }] }
    ∧ (∃ e', lookupEx (buildMap ([e2er1] ++ [e2er2])) 1 100 = some e'
        ∧ e'.name = "Squat" ∧ e'.order = 0
        ∧ ∃ tl, e'.sets = [{ setNumber := 1, weight := some "225", reps := some 5,
                             durationSeconds := none }] ++ tl) :=
  ⟨by decide,
   (exercise_entry_frame [e2er1] [e2er2] 1 100
     { name := "Squat", order := 0,
       sets := [{ setNumber := 1, weight := some "225", reps := some 5,
                  durationSeconds := none }] } (by decide)).1⟩

/-! ## Claim C3: behaviour under row reordering

The claim as stated fails: when the same exercise id is linked into a workout by
two different join records with different `order` values (the aggregator takes
`order` from whichever row it meets first), permuting the rows changes which
`order` wins and hence the sort position of that exercise.  Under the coherence
conditions that hold for well-formed joined data the claim does hold, with the
output workout list equal up to permutation. -/

/-- C3 counterexample: swapping the first two rows of a concrete batch (two join
records linking exercise 100 with orders 0 and 5, plus exercise 200 with order 3)
permutes the input but changes the exercise order inside the single output
workout, so the two outputs are not equal — with one workout in both outputs, no
part of the claimed input-order independence can explain the difference. -/
theorem aggregate_reorder_counterexample :
    ([c3r1, c3r2, c3r3].Perm [c3r2, c3r1, c3r3])
    ∧ aggregate [c3r1, c3r2, c3r3] ≠ aggregate [c3r2, c3r1, c3r3] :=
  ⟨List.Perm.swap c3r2 c3r1 [c3r3], by decide⟩

theorem coherent_spec {rows : List Row} (hc : coherent rows = true) :
    ∀ r₁ ∈ rows, ∀ r₂ ∈ rows, pairCheck r₁ r₂ = true := by
  simp only [coherent, List.all_eq_true] at hc
  exact hc

/-- All consequences of `pairCheck` for two rows of the same workout carrying
exercise payloads. -/
theorem coherent_pairs {rows : List Row} (hc : coherent rows = true) {wid : Nat}
    {r₁ r₂ : Row} (h₁ : r₁ ∈ rows) (h₂ : r₂ ∈ rows)
    (hw₁ : rowForW wid r₁ = true) (hw₂ : rowForW wid r₂ = true)
    {p₁ p₂ : ExerciseRec × WorkoutExerciseRec × Option SetRec}
    (hp₁ : exPair r₁ = some p₁) (hp₂ : exPair r₂ = some p₂) :
    (p₁.1.id = p₂.1.id → p₁.1 = p₂.1 ∧ p₁.2.1.order = p₂.2.1.order)
    ∧ (p₁.1.id ≠ p₂.1.id → p₁.2.1.order ≠ p₂.2.1.order)
    ∧ (∀ s₁ s₂, p₁.2.2 = some s₁ → p₂.2.2 = some s₂ → p₁.1.id = p₂.1.id →
        s₁.setNumber = s₂.setNumber → s₁ = s₂) := by
  obtain ⟨w₁, hww₁, hid₁⟩ := (rowForW_eq_true_iff wid r₁).mp hw₁
  obtain ⟨w₂, hww₂, hid₂⟩ := (rowForW_eq_true_iff wid r₂).mp hw₂
  have hid : w₁.id = w₂.id := hid₁.trans hid₂.symm
  have hpc := coherent_spec hc r₁ h₁ r₂ h₂
  unfold pairCheck at hpc
  simp only [hww₁, hww₂, hp₁, hp₂] at hpc
  rw [if_pos hid] at hpc
  simp only [Bool.and_eq_true, decide_eq_true_eq] at hpc
  obtain ⟨-, hrest⟩ := hpc
  by_cases hide : p₁.1.id = p₂.1.id
  · rw [if_pos hide] at hrest
    simp only [Bool.and_eq_true, decide_eq_true_eq] at hrest
    obtain ⟨⟨hex, hord⟩, hsets⟩ := hrest
    refine ⟨fun _ => ⟨hex, hord⟩, fun h => absurd hide h, ?_⟩
    intro s₁ s₂ hs₁ hs₂ _ hsn
    rw [hs₁, hs₂] at hsets
    simp only [decide_eq_true_eq] at hsets
    exact hsets hsn
  · rw [if_neg hide] at hrest
    simp only [decide_eq_true_eq] at hrest
    exact ⟨fun h => absurd h hide, fun _ => hrest, fun _ _ _ _ h => absurd h hide⟩

theorem mem_foldl_stepE_char
    {ps : List (ExerciseRec × WorkoutExerciseRec × Option SetRec)}
    {q : Nat × ExerciseEntry} (hq : q ∈ ps.foldl stepE []) :
    gatherE ps q.1 = some q.2 := by
  rw [← gatherE_char]
  obtain ⟨k, e⟩ := q
  exact lookupA_eq_some_of_mem (keys_foldl_stepE_nodup ps [] (by simp)) hq

theorem gatherE_head_src
    {ps : List (ExerciseRec × WorkoutExerciseRec × Option SetRec)} {eid : Nat}
    {e : ExerciseEntry} (h : gatherE ps eid = some e) :
    ∃ pr ∈ ps, pr.1.id = eid ∧ e.name = pr.1.name ∧ e.order = pr.2.1.order := by
  obtain ⟨pr, rest, hfm, he⟩ := gatherE_some_shape h
  have hmem : pr ∈ ps.filter (fun q => q.1.id == eid) := by
    rw [hfm]; exact List.mem_cons_self pr rest
  have hm := List.mem_filter.mp hmem
  exact ⟨pr, hm.1, by simpa using hm.2, by rw [he], by rw [he]⟩

/-- Per-exercise output equality: two permuted coherent pair batches give the
same `order` and the same finalized exercise for every exercise id. -/
theorem gatherE_out_eq {rows : List Row} (hc : coherent rows = true) {wid : Nat}
    {ps₁ ps₂ : List (ExerciseRec × WorkoutExerciseRec × Option SetRec)}
    (hperm : ps₁.Perm ps₂)
    (hsrc : ∀ p ∈ ps₁, ∃ r ∈ rows, rowForW wid r = true ∧ exPair r = some p)
    (eid : Nat) :
    (gatherE ps₁ eid).map (fun e => (e.order, finalizeEntry e)) =
    (gatherE ps₂ eid).map (fun e => (e.order, finalizeEntry e)) := by
  have hmp : (ps₁.filter (fun q => q.1.id == eid)).Perm
      (ps₂.filter (fun q => q.1.id == eid)) := hperm.filter _
  cases hm₁ : ps₁.filter (fun q => q.1.id == eid) with
  | nil =>
      have hm₂ : ps₂.filter (fun q => q.1.id == eid) = [] := by
        rw [hm₁] at hmp
        exact hmp.symm.eq_nil
      simp [gatherE, hm₁, hm₂]
  | cons p₁ t₁ =>
      cases hm₂ : ps₂.filter (fun q => q.1.id == eid) with
      | nil =>
          rw [hm₁, hm₂] at hmp
          simpa using hmp.eq_nil
      | cons p₂ t₂ =>
          rw [hm₁, hm₂] at hmp
          have hp₁m : p₁ ∈ ps₁.filter (fun q => q.1.id == eid) := by
            rw [hm₁]; exact List.mem_cons_self p₁ t₁
          have hp₂m : p₂ ∈ ps₂.filter (fun q => q.1.id == eid) := by
            rw [hm₂]; exact List.mem_cons_self p₂ t₂
          have hp₁f := List.mem_filter.mp hp₁m
          have hp₂f := List.mem_filter.mp hp₂m
          have hp₂ps₁ : p₂ ∈ ps₁ := hperm.mem_iff.mpr hp₂f.1
          obtain ⟨r₁, hr₁, hwf₁, hexp₁⟩ := hsrc p₁ hp₁f.1
          obtain ⟨r₂, hr₂, hwf₂, hexp₂⟩ := hsrc p₂ hp₂ps₁
          have he₁ : p₁.1.id = eid := by simpa using hp₁f.2
          have he₂ : p₂.1.id = eid := by simpa using hp₂f.2
          have hide : p₁.1.id = p₂.1.id := by rw [he₁, he₂]
          obtain ⟨hex, hord⟩ :=
            (coherent_pairs hc hr₁ hr₂ hwf₁ hwf₂ hexp₁ hexp₂).1 hide
          have hsp : (((p₁ :: t₁).filterMap (fun q => q.2.2)).map mkWorkoutSet).Perm
              (((p₂ :: t₂).filterMap (fun q => q.2.2)).map mkWorkoutSet) :=
            (hmp.filterMap _).map _
          have hinj : ∀ a ∈ ((p₁ :: t₁).filterMap (fun q => q.2.2)).map mkWorkoutSet,
              ∀ b ∈ ((p₁ :: t₁).filterMap (fun q => q.2.2)).map mkWorkoutSet,
              a.setNumber = b.setNumber → a = b := by
            intro a ha b hb hab
            obtain ⟨sa, hsa, rfl⟩ := List.mem_map.mp ha
            obtain ⟨sb, hsb, rfl⟩ := List.mem_map.mp hb
            obtain ⟨qa, hqa, hqsa⟩ := List.mem_filterMap.mp hsa
            obtain ⟨qb, hqb, hqsb⟩ := List.mem_filterMap.mp hsb
            have hqam : qa ∈ ps₁.filter (fun q => q.1.id == eid) := by
              rw [hm₁]; exact hqa
            have hqbm : qb ∈ ps₁.filter (fun q => q.1.id == eid) := by
              rw [hm₁]; exact hqb
            have hqaf := List.mem_filter.mp hqam
            have hqbf := List.mem_filter.mp hqbm
            obtain ⟨ra, hra, hwfa, hexpa⟩ := hsrc qa hqaf.1
            obtain ⟨rb, hrb, hwfb, hexpb⟩ := hsrc qb hqbf.1
            have hidab : qa.1.id = qb.1.id := by
              have ha' : qa.1.id = eid := by simpa using hqaf.2
              have hb' : qb.1.id = eid := by simpa using hqbf.2
              rw [ha', hb']
            have hseq : sa = sb :=
              (coherent_pairs hc hra hrb hwfa hwfb hexpa hexpb).2.2 sa sb hqsa hqsb
                hidab hab
            rw [hseq]
          have hsorted := sortByKey_eq_of_perm (fun s => s.setNumber) hsp hinj
          simp only [gatherE, hm₁, hm₂, Option.map_some]
          have hname : p₁.1.name = p₂.1.name := by rw [hex]
          simp [finalizeEntry, hord, hname, hsorted]

theorem map_entryOut_eq (E : List (Nat × ExerciseEntry)) :
    E.map (fun q => entryOut q.2) =
    (E.map (fun p => (p.1, entryOut p.2))).map Prod.snd := by
  rw [List.map_map]
  rfl

theorem sorted_out_view (E : List (Nat × ExerciseEntry)) :
    (sortByKey (fun q => q.2.order) E).map (fun q => finalizeEntry q.2) =
    (sortByKey Prod.fst (E.map (fun q => entryOut q.2))).map Prod.snd := by
  rw [← sortByKey_map (fun q => entryOut q.2) (fun q => q.2.order) Prod.fst
      (fun a => rfl) E]
  rw [List.map_map]
  rfl

/-- Per-workout output equality: two permuted coherent pair batches fold and
finalize to the same sorted exercise output list. -/
theorem exercises_out_eq {rows : List Row} (hc : coherent rows = true) {wid : Nat}
    {ps₁ ps₂ : List (ExerciseRec × WorkoutExerciseRec × Option SetRec)}
    (hperm : ps₁.Perm ps₂)
    (hsrc : ∀ p ∈ ps₁, ∃ r ∈ rows, rowForW wid r = true ∧ exPair r = some p) :
    (sortByKey (fun q => q.2.order) (ps₁.foldl stepE [])).map
      (fun q => finalizeEntry q.2) =
    (sortByKey (fun q => q.2.order) (ps₂.foldl stepE [])).map
      (fun q => finalizeEntry q.2) := by
  have hnd₁ : (((ps₁.foldl stepE []).map
      (fun p => (p.1, entryOut p.2))).map Prod.fst).Nodup := by
    rw [List.map_map]
    exact keys_foldl_stepE_nodup ps₁ [] (by simp)
  have hnd₂ : (((ps₂.foldl stepE []).map
      (fun p => (p.1, entryOut p.2))).map Prod.fst).Nodup := by
    rw [List.map_map]
    exact keys_foldl_stepE_nodup ps₂ [] (by simp)
  have hlook : ∀ k,
      lookupA ((ps₁.foldl stepE []).map (fun p => (p.1, entryOut p.2))) k =
      lookupA ((ps₂.foldl stepE []).map (fun p => (p.1, entryOut p.2))) k := by
    intro k
    rw [lookupA_map_val entryOut, lookupA_map_val entryOut, gatherE_char, gatherE_char]
    exact gatherE_out_eq hc hperm hsrc k
  have hV := perm_of_lookupA_eq hnd₁ hnd₂ hlook
  have hperm' : ((ps₁.foldl stepE []).map (fun q => entryOut q.2)).Perm
      ((ps₂.foldl stepE []).map (fun q => entryOut q.2)) := by
    rw [map_entryOut_eq, map_entryOut_eq]
    exact hV.map Prod.snd
  have hinj : ∀ a ∈ (ps₁.foldl stepE []).map (fun q => entryOut q.2),
      ∀ b ∈ (ps₁.foldl stepE []).map (fun q => entryOut q.2),
      a.1 = b.1 → a = b := by
    intro a ha b hb hab
    obtain ⟨qa, hqa, rfl⟩ := List.mem_map.mp ha
    obtain ⟨qb, hqb, rfl⟩ := List.mem_map.mp hb
    have hga := mem_foldl_stepE_char hqa
    have hgb := mem_foldl_stepE_char hqb
    by_cases hqid : qa.1 = qb.1
    · have h₂ : lookupA (ps₁.foldl stepE []) qb.1 = some qb.2 := by
        rw [gatherE_char]; exact hgb
      have h₁ : lookupA (ps₁.foldl stepE []) qa.1 = some qa.2 := by
        rw [gatherE_char]; exact hga
      rw [← hqid] at h₂
      rw [h₁] at h₂
      have hv : qa.2 = qb.2 := Option.some.inj h₂
      have hq : qa = qb := by
        have := congrArg₂ Prod.mk hqid hv
        exact this
      rw [hq]
    · exfalso
      obtain ⟨pa, hpa, hpaid, hpaname, hpaord⟩ := gatherE_head_src hga
      obtain ⟨pb, hpb, hpbid, hpbname, hpbord⟩ := gatherE_head_src hgb
      obtain ⟨ra, hra, hwa, hexpa⟩ := hsrc pa hpa
      obtain ⟨rb, hrb, hwb, hexpb⟩ := hsrc pb hpb
      have hne : pa.1.id ≠ pb.1.id := by
        rw [hpaid, hpbid]; exact hqid
      have hordne := (coherent_pairs hc hra hrb hwa hwb hexpa hexpb).2.1 hne
      apply hordne
      have hoo : qa.2.order = qb.2.order := hab
      rw [hpaord, hpbord] at hoo
      exact hoo
  rw [sorted_out_view, sorted_out_view, sortByKey_eq_of_perm Prod.fst hperm' hinj]

theorem coherent_workout {rows : List Row} (hc : coherent rows = true)
    {r₁ r₂ : Row} (h₁ : r₁ ∈ rows) (h₂ : r₂ ∈ rows)
    {w₁ w₂ : WorkoutRec} (hww₁ : r₁.workout = some w₁) (hww₂ : r₂.workout = some w₂)
    (hid : w₁.id = w₂.id) : w₁ = w₂ := by
  have hpc := coherent_spec hc r₁ h₁ r₂ h₂
  unfold pairCheck at hpc
  simp only [hww₁, hww₂] at hpc
  rw [if_pos hid] at hpc
  simp only [Bool.and_eq_true, decide_eq_true_eq] at hpc
  exact hpc.1

/-- C3 amended: for a coherent row batch (each workout id carries one workout
record, each exercise id within a workout one name and one `order`, set numbers
determine their set record within an exercise, and distinct exercises of a
workout have distinct `order`s — all true of well-formed joined data),
aggregating any permutation of the batch yields the same output up to
permutation of the workout list: the workout summaries themselves, including the
order of exercises within each workout and of sets within each exercise, are
identical. -/
theorem aggregate_perm_of_coherent (rows₁ rows₂ : List Row)
    (hp : rows₁.Perm rows₂) (hc : coherent rows₁ = true) :
    (aggregate rows₁).Perm (aggregate rows₂) := by
  have hFW : ∀ wid, (lookupA (buildMap rows₁) wid).map finalizeAcc =
      (lookupA (buildMap rows₂) wid).map finalizeAcc := by
    intro wid
    rw [gatherW_char, gatherW_char]
    have hfp : (rows₁.filter (rowForW wid)).Perm (rows₂.filter (rowForW wid)) :=
      hp.filter _
    cases hf₁ : rows₁.filter (rowForW wid) with
    | nil =>
        have hf₂ : rows₂.filter (rowForW wid) = [] := by
          rw [hf₁] at hfp
          exact hfp.symm.eq_nil
        simp [gatherW, hf₁, hf₂]
    | cons r₁ t₁ =>
        cases hf₂ : rows₂.filter (rowForW wid) with
        | nil =>
            rw [hf₁, hf₂] at hfp
            simpa using hfp.eq_nil
        | cons r₂ t₂ =>
            rw [hf₁, hf₂] at hfp
            have hr₁m : r₁ ∈ rows₁.filter (rowForW wid) := by
              rw [hf₁]; exact List.mem_cons_self r₁ t₁
            have hr₂m : r₂ ∈ rows₂.filter (rowForW wid) := by
              rw [hf₂]; exact List.mem_cons_self r₂ t₂
            have hr₁f := List.mem_filter.mp hr₁m
            have hr₂f := List.mem_filter.mp hr₂m
            have hr₂rows₁ : r₂ ∈ rows₁ := hp.mem_iff.mpr hr₂f.1
            obtain ⟨w₁, hww₁, hid₁⟩ := (rowForW_eq_true_iff wid r₁).mp hr₁f.2
            obtain ⟨w₂, hww₂, hid₂⟩ := (rowForW_eq_true_iff wid r₂).mp hr₂f.2
            have hw12 : w₁ = w₂ :=
              coherent_workout hc hr₁f.1 hr₂rows₁ hww₁ hww₂ (hid₁.trans hid₂.symm)
            have hpp : ((r₁ :: t₁).filterMap exPair).Perm
                ((r₂ :: t₂).filterMap exPair) := hfp.filterMap _
            have hsrc : ∀ p ∈ (r₁ :: t₁).filterMap exPair,
                ∃ r ∈ rows₁, rowForW wid r = true ∧ exPair r = some p := by
              intro p hpmem
              have hpm : p ∈ (rows₁.filter (rowForW wid)).filterMap exPair := by
                rw [hf₁]; exact hpmem
              obtain ⟨r, hr, hexp⟩ := List.mem_filterMap.mp hpm
              have hrr := List.mem_filter.mp hr
              exact ⟨r, hrr.1, hrr.2, hexp⟩
            have hout := exercises_out_eq hc hpp hsrc
            simp only [gatherW, hf₁, hf₂, hww₁, hww₂, Option.map_some]
            rw [hw12]
            simp [finalizeAcc, hout]
  have hnd₁ : (((buildMap rows₁).map
      (fun p => (p.1, finalizeAcc p.2))).map Prod.fst).Nodup := by
    rw [List.map_map]
    exact keys_buildMap_nodup rows₁
  have hnd₂ : (((buildMap rows₂).map
      (fun p => (p.1, finalizeAcc p.2))).map Prod.fst).Nodup := by
    rw [List.map_map]
    exact keys_buildMap_nodup rows₂
  have hlook : ∀ k,
      lookupA ((buildMap rows₁).map (fun p => (p.1, finalizeAcc p.2))) k =
      lookupA ((buildMap rows₂).map (fun p => (p.1, finalizeAcc p.2))) k := by
    intro k
    rw [lookupA_map_val finalizeAcc, lookupA_map_val finalizeAcc]
    exact hFW k
  have hW := perm_of_lookupA_eq hnd₁ hnd₂ hlook
  have ha₁ : aggregate rows₁ =
      ((buildMap rows₁).map (fun p => (p.1, finalizeAcc p.2))).map Prod.snd := by
    unfold aggregate
    rw [List.map_map]
    rfl
  have ha₂ : aggregate rows₂ =
      ((buildMap rows₂).map (fun p => (p.1, finalizeAcc p.2))).map Prod.snd := by
    unfold aggregate
    rw [List.map_map]
    rfl
  rw [ha₁, ha₂]
  exact hW.map Prod.snd

/-- Witness for C3's amended theorem: swapping the two rows of the (coherent)
end-to-end batch permutes the aggregates. -/
theorem aggregate_perm_of_coherent_witness :
    ([e2er1, e2er2].Perm [e2er2, e2er1])
    ∧ coherent [e2er1, e2er2] = true
    ∧ (aggregate [e2er1, e2er2]).Perm (aggregate [e2er2, e2er1]) :=
  ⟨List.Perm.swap e2er2 e2er1 [], by decide,
   aggregate_perm_of_coherent [e2er1, e2er2] [e2er2, e2er1]
     (List.Perm.swap e2er2 e2er1 []) (by decide)⟩
